import Mathlib

/-!
Shallow embedding of the option-tree core of the nix-gui repository
(`src/nixui/options/option_tree.py`), together with theorems settling the
claims about it.

The module `option_tree.py` is the authority for every definition below that
embeds it.  The supporting value types `Attribute` and `OptionDefinition`
(files `attribute.py` / `option_definition.py`) are not part of the provided
sources; they are modelled from the specification (§3 of the spec), as marked
on each such definition.

Python's dynamic typing is embedded by the universal value type `PyVal`;
exceptions are embedded by `Except PyErr`; `uuid.uuid4()` regeneration of the
change marker is embedded by a counter that is bumped exactly where the source
assigns a fresh uuid (the only property used of a uuid is freshness).
Python dicts are embedded as insertion-ordered association lists, Python sets
as duplicate-free lists built by `setAdd`.
-/

set_option autoImplicit false

namespace Nixui

/-- Python exception kinds that the embedded code can raise.
`nameError "treelib"` is the error actually raised by the `except` clause of
`OptionTree.children`, whose expression `treelib.exceptions.NodeIDAbsentError`
names the module `treelib` that was never bound (the source only does
`from treelib import Tree, Node`).  `outOfFuel` is an artefact of embedding
the recursion of `rename_attribute`; it never occurs on the inputs used. -/
inductive PyErr
  | nameError (s : String)
  | keyError
  | valueError
  | attrError
  | typeError
  | nodeIDAbsent
  | outOfFuel
deriving DecidableEq, Repr

/-- Modelled from the spec (§3): `OptionDefinition` is "a tagged value
representing 'no value' (undefined) or a concrete user/system-supplied value
expression.  Equality-comparable; has a distinguished `undefined` sentinel."
The concrete expression is kept opaque as a string. -/
inductive OptionDefinition
  | undefined
  | defined (expr : String)
deriving DecidableEq, Repr, Inhabited

/-- Universal value type for the dynamically typed Python fields.
`undef` is the `Undefined` sentinel object of `option_definition.py` (used as
the default of the metadata fields of `OptionData`); `odef` wraps an
`OptionDefinition` object.  Values of distinct constructors compare unequal,
as distinct-type Python values do under `==` here. -/
inductive PyVal
  | undef
  | str (s : String)
  | bool (b : Bool)
  | odef (d : OptionDefinition)
deriving DecidableEq, Repr, Inhabited

/-- Modelled from the spec (§3): an `Attribute` is an immutable path of
segments; equality is equality of the segment sequences.  The reserved
placeholder segment is the literal string `<name>`. -/
structure Attribute where
  loc : List String
deriving DecidableEq, Repr, Inhabited

/-- `Attribute.from_insertion(parent, key)`: the path `parent` extended by the
final segment `key` (modelled from the spec's "prefix/ancestor queries"). -/
def Attribute.from_insertion (a : Attribute) (k : String) : Attribute :=
  ⟨a.loc ++ [k]⟩

/-- `attribute.get_set()`: the parent path (all but the last segment). -/
def Attribute.get_set (a : Attribute) : Attribute :=
  ⟨a.loc.dropLast⟩

/-- `attribute.get_end()`: the last segment (`loc[-1]`; every call site in the
source applies it to a non-empty path, so the empty default is never hit). -/
def Attribute.get_end (a : Attribute) : String :=
  a.loc.getLastD ""

/-! ### Character-list string machinery

Python string operations used by the source (`in`, `str.replace`,
`removeprefix`, `removesuffix`, lexicographic `<` used by `sorted`) are
embedded over `List Char` so that every definition reduces definitionally. -/

/-- `listStarts p l`: `p` is an initial run of `l`. -/
def listStarts : List Char → List Char → Bool
  | [], _ => true
  | _ :: _, [] => false
  | a :: as, b :: bs => a == b && listStarts as bs

/-- `listSub p l`: `p` occurs as a contiguous run somewhere in `l`
(Python `p in l` for strings). -/
def listSub (p : List Char) : List Char → Bool
  | [] => listStarts p []
  | c :: rest => listStarts p (c :: rest) || listSub p rest

/-- Python `needle in hay` on strings. -/
def strIn (needle hay : String) : Bool :=
  listSub needle.toList hay.toList

/-- Worker for `listReplace`: while `skip > 0` the current character belongs
to an already-replaced occurrence of the pattern and is dropped. -/
def listReplaceGo (pat rep : List Char) : List Char → Nat → List Char
  | [], _ => []
  | c :: rest, skip =>
    match skip with
    | n + 1 => listReplaceGo pat rep rest n
    | 0 =>
      if listStarts pat (c :: rest) then
        rep ++ listReplaceGo pat rep rest (pat.length - 1)
      else
        c :: listReplaceGo pat rep rest 0

/-- Python `s.replace(pat, rep)` for a non-empty pattern (the source only
replaces the non-empty pattern `"<name>"` including quotes). -/
def listReplace (pat rep l : List Char) : List Char :=
  if pat.isEmpty then l else listReplaceGo pat rep l 0

/-- `listEnds suf l`: `l` ends with the run `suf`. -/
def listEnds (suf l : List Char) : Bool :=
  listStarts suf.reverse l.reverse

/-- Python `s.removeprefix(pre)`. -/
def pyRemoveLeading (pre s : String) : String :=
  if pre.isPrefixOf s then s.drop pre.length else s

/-- Python `s.removesuffix(suf)`. -/
def pyRemoveTrailing (suf s : String) : String :=
  if listEnds suf.toList s.toList then s.dropRight suf.length else s

/-- Lexicographic strict order on character lists by code point, as Python
compares strings. -/
def charListLt : List Char → List Char → Bool
  | [], [] => false
  | [], _ :: _ => true
  | _ :: _, [] => false
  | a :: as, b :: bs => if a == b then charListLt as bs else a.val < b.val

/-- Stable insertion into a list already sorted by the strict comparator
`lt` composed with `key`: the new element goes after every element whose key
is not strictly greater, which is how Python's stable `sorted` orders ties. -/
def insertByKey {α : Type} (key : α → List Char) (x : α) : List α → List α
  | [] => [x]
  | y :: ys =>
    if charListLt (key x) (key y) then x :: y :: ys
    else y :: insertByKey key x ys

/-- Python `sorted(l, key=key)` (stable sort by a string key). -/
def sortByKey {α : Type} (key : α → List Char) : List α → List α
  | [] => []
  | x :: xs => insertByKey key x (sortByKey key xs)

/-! ### Attribute string rendering

Modelled from the spec: `Attribute.__str__` joins the segments with dots,
wrapping a segment in double quotes when it is not a plain identifier (the
sort-key hack of `OptionTree.__init__` and the filter of
`OptionTree.children` both rely on the placeholder `<name>` rendering as
`"<name>"` with quotes).  Python `seg in attribute` is the substring test on
this rendering (spec §9: "filtering `<name>` nodes out of enumeration by
checking for a substring"). -/

/-- A segment renders unquoted iff it is a plain identifier. -/
def segIsSimple (s : String) : Bool :=
  match s.toList with
  | [] => false
  | c :: rest => (c.isAlpha || c == '_') && rest.all (fun d => d.isAlphanum || d == '_' || d == '-')

/-- Render one segment, quoting it when it is not a plain identifier. -/
def renderSeg (s : String) : String :=
  if segIsSimple s then s else "\"" ++ s ++ "\""

/-- Dot-join of rendered segments, as a character list. -/
def joinDotList : List String → List Char
  | [] => []
  | [s] => s.toList
  | s :: rest => s.toList ++ '.' :: joinDotList rest

/-- Modelled from the spec: `str(attribute)`. -/
def attrToString (a : Attribute) : String :=
  String.mk (joinDotList (a.loc.map renderSeg))

/-- Python `needle in attribute` (substring of the string rendering). -/
def attrHas (needle : String) (a : Attribute) : Bool :=
  strIn needle (attrToString a)

/-! ### `OptionData` (`option_tree.py` lines 12–30) -/

/-- The per-node record.  Field defaults as in the dataclass: the metadata
fields default to the `Undefined` sentinel, the three definition slots to
`OptionDefinition.undefined()`. -/
structure OptionData where
  description : PyVal := .undef
  readOnly : PyVal := .undef
  _type : PyVal := .undef
  system_default_definition : PyVal := .odef .undefined
  configured_definition : PyVal := .odef .undefined
  in_memory_definition : PyVal := .odef .undefined
deriving DecidableEq, Repr, Inhabited

/-- The dataclass field names of `OptionData`, as tested by
`hasattr(self, key)` in `OptionData.update`.  (`hasattr` on the Python
instance would also see the methods `update` and `copy` and the dunder
attributes; assigning to those shadows a method and touches no dataclass
field, so the embedding restricts `hasattr` to the data fields.) -/
def fieldNames : List String :=
  ["description", "readOnly", "_type",
   "system_default_definition", "configured_definition", "in_memory_definition"]

/-- `hasattr(self, k)` restricted to the dataclass fields. -/
def hasattrF (k : String) : Bool :=
  fieldNames.contains k

/-- `setattr(self, k, v)` for a dataclass field (identity on any other name;
`OptionData.update` only calls it under a `hasattrF` guard). -/
def setattrF (d : OptionData) (k : String) (v : PyVal) : OptionData :=
  if k = "description" then { d with description := v }
  else if k = "readOnly" then { d with readOnly := v }
  else if k = "_type" then { d with _type := v }
  else if k = "system_default_definition" then { d with system_default_definition := v }
  else if k = "configured_definition" then { d with configured_definition := v }
  else if k = "in_memory_definition" then { d with in_memory_definition := v }
  else d

/-- One iteration of the loop of `OptionData.update`: set the matching
field, else the underscore-prefixed field, else ignore the pair. -/
def updateStep (acc : OptionData) (kv : String × PyVal) : OptionData :=
  if hasattrF kv.1 then setattrF acc kv.1 kv.2
  else if hasattrF ("_" ++ kv.1) then setattrF acc ("_" ++ kv.1) kv.2
  else acc

/-- `OptionData.update(self, new)`. -/
def OptionData.update (d : OptionData) (kvs : List (String × PyVal)) : OptionData :=
  kvs.foldl updateStep d

/-! ### The tree container

The source stores nodes in a `treelib.Tree`.  Following the spec's design
note (§9), the hierarchy is embedded as a flat arena of node records, each
carrying its identifier and an explicit parent pointer; the arena list keeps
dict insertion order.  Every node creation and identifier update in
`option_tree.py` passes `tag` equal to `identifier` (and the root's tag
defaults to its identifier), so the tag is not stored separately: filters on
`node.tag` read the identifier. -/

/-- One `treelib.Node` as used by `option_tree.py`: identifier (= tag),
parent pointer (`none` for a root) and the `OptionData` payload (every node
the source ever creates is given a payload, so it is not optional). -/
structure TNode where
  ident : Attribute
  parent : Option Attribute
  data : OptionData
deriving DecidableEq, Repr, Inhabited

/-- The node arena of a `treelib.Tree`. -/
structure PTree where
  nodes : List TNode
deriving DecidableEq, Repr, Inhabited

/-- `tree.get_node(a)` (`None` when absent). -/
def PTree.getNode (t : PTree) (a : Attribute) : Option TNode :=
  t.nodes.find? (fun n => n.ident == a)

/-- `a in tree` (treelib `__contains__`). -/
def PTree.containsId (t : PTree) (a : Attribute) : Bool :=
  (t.getNode a).isSome

/-- `tree.create_node(tag, identifier, parent, data)` (appends to the node
dict). -/
def PTree.createNode (t : PTree) (a : Attribute) (parent : Option Attribute)
    (d : OptionData) : PTree :=
  ⟨t.nodes ++ [⟨a, parent, d⟩]⟩

/-- `tree.update_node(a, data=d)` (in-place payload update). -/
def PTree.updateData (t : PTree) (a : Attribute) (d : OptionData) : PTree :=
  ⟨t.nodes.map (fun n => if n.ident == a then { n with data := d } else n)⟩

/-- `tree.children(a)`: the nodes whose parent pointer is `a`, in arena
order.  (Existence of `a` is checked by the callers that need the treelib
`NodeIDAbsentError`.) -/
def PTree.childrenOf (t : PTree) (a : Attribute) : List TNode :=
  t.nodes.filter (fun n => n.parent == some a)

/-- Depth-first list of the strict descendants of `a`, following child
edges; `fuel` bounds the recursion (the callers pass the arena size, which
suffices on every acyclic arena). -/
def PTree.descendFrom (t : PTree) : Nat → Attribute → List TNode
  | 0, _ => []
  | fuel + 1, a =>
    (t.childrenOf a).foldr (fun c acc => c :: (t.descendFrom fuel c.ident ++ acc)) []

/-- `tree.subtree(a)`: the subtree rooted at `a` (root keeps its payload,
loses its parent pointer), or `NodeIDAbsentError` when `a` is absent. -/
def PTree.subtreeOf (t : PTree) (a : Attribute) : Except PyErr PTree :=
  match t.getNode a with
  | none => .error .nodeIDAbsent
  | some nd => .ok ⟨{ nd with parent := none } :: t.descendFrom t.nodes.length a⟩

/-- `tree.leaves(a)`: the childless nodes of the subtree rooted at `a`
(including `a` itself when childless), or `NodeIDAbsentError`. -/
def PTree.leavesOf (t : PTree) (a : Attribute) : Except PyErr (List TNode) :=
  match t.getNode a with
  | none => .error .nodeIDAbsent
  | some nd =>
    .ok ((nd :: t.descendFrom t.nodes.length a).filter
      (fun n => (t.childrenOf n.ident).isEmpty))

/-- `tree.paste(target, branch)`: splice `branch` under `target`; treelib
raises `ValueError` when an identifier of the branch already occurs in the
tree.  The branch root (the node without a parent pointer) is re-parented to
`target`. -/
def PTree.paste (t : PTree) (target : Attribute) (branch : PTree) :
    Except PyErr PTree :=
  if branch.nodes.any (fun n => t.containsId n.ident) then .error .valueError
  else
    .ok ⟨t.nodes ++ branch.nodes.map (fun n =>
      match n.parent with
      | none => { n with parent := some target }
      | some _ => n)⟩

/-- `tree.update_node(old, identifier=new, tag=new)`: relabels the node and
repoints its children's parent pointers, `NodeIDAbsentError` when `old` is
absent.  (treelib also moves the node to the end of its dict; no claim
observes enumeration order, so the arena position is kept.) -/
def PTree.updateNodeIdent (t : PTree) (old new : Attribute) : Except PyErr PTree :=
  match t.getNode old with
  | none => .error .nodeIDAbsent
  | some _ =>
    .ok ⟨t.nodes.map (fun n =>
      let n := if n.ident == old then { n with ident := new } else n
      if n.parent == some old then { n with parent := some new } else n)⟩

/-! ### Python dict / set helpers for the change caches -/

/-- `d[k] = v` on an insertion-ordered dict: in-place update when the key is
present, append otherwise. -/
def dictSet (k : Attribute) (v : PyVal) (l : List (Attribute × PyVal)) :
    List (Attribute × PyVal) :=
  if l.any (fun p => p.1 == k) then
    l.map (fun p => if p.1 == k then (k, v) else p)
  else l ++ [(k, v)]

/-- `if k in d: del d[k]`. -/
def dictDel (k : Attribute) (l : List (Attribute × PyVal)) :
    List (Attribute × PyVal) :=
  l.filter (fun p => !(p.1 == k))

/-- `s.add(x)` on a Python set, embedded as a duplicate-free list. -/
def setAdd (x : Attribute) (s : List Attribute) : List Attribute :=
  if x ∈ s then s else s ++ [x]

/-! ### `OptionTree` (`option_tree.py` lines 33–246) -/

/-- The `OptionTree` state: the node arena plus the two change caches and the
change marker.  `uuid.uuid4()` is embedded as a counter bumped at exactly the
source's assignment sites, `None` as the initial `0` (only freshness of the
marker is ever used, via `__hash__`). -/
structure OptionTree where
  tree : PTree
  in_memory_change_cache : List (Attribute × PyVal)
  configured_change_cache : List (Attribute × PyVal)
  change_marker : Nat
deriving DecidableEq, Repr, Inhabited

namespace OptionTree

/-- `_is_attribute_set(attribute)`: substring test `'attribute set of' in
data._type`.  The `if data:` guard of the source distinguishes a `None`
payload, which no reachable node has (every creation passes a payload), so
the guard is always taken; a non-string `_type` would make Python's `in`
raise `TypeError`. -/
def isAttributeSet (t : PTree) (a : Attribute) : Except PyErr Bool :=
  match t.getNode a with
  | none => .error .attrError
  | some nd =>
    match nd.data._type with
    | .str s => .ok (strIn "attribute set of" s)
    | _ => .error .typeError

/-- Substitute the first occurrence of the `<name>` segment
(`loc[loc.index('<name>')] = seg`); `ValueError` when no segment is `<name>`,
as `list.index` raises. -/
def replaceNameSeg (seg : String) : List String → Except PyErr (List String)
  | [] => .error .valueError
  | s :: rest =>
    if s = "<name>" then .ok (seg :: rest)
    else
      match replaceNameSeg seg rest with
      | .error e => .error e
      | .ok rest' => .ok (s :: rest')

/-- Relabel every node of a cloned template branch, substituting the first
`<name>` segment of each identifier (and of each internal parent pointer,
which treelib's `update_node` repoints when the parent itself is relabelled;
internal parents are identifiers of branch nodes, so their substitution
succeeds whenever all identifier substitutions do). -/
def relabelNodes (seg : String) : List TNode → Except PyErr (List TNode)
  | [] => .ok []
  | n :: rest =>
    match replaceNameSeg seg n.ident.loc with
    | .error e => .error e
    | .ok loc' =>
      match n.parent with
      | none =>
        match relabelNodes seg rest with
        | .error e => .error e
        | .ok rest' => .ok ({ n with ident := ⟨loc'⟩ } :: rest')
      | some p =>
        match replaceNameSeg seg p.loc with
        | .error e => .error e
        | .ok ploc' =>
          match relabelNodes seg rest with
          | .error e => .error e
          | .ok rest' => .ok (⟨⟨loc'⟩, some ⟨ploc'⟩, n.data⟩ :: rest')

/-- `_get_attribute_set_template_branch(attribute)` (lines 108–133): clone
the parent's `<name>` subtree for a submodule set, or derive a single leaf
with the element type for a scalar set. -/
def templateBranch (t : PTree) (attr : Attribute) : Except PyErr PTree :=
  match t.getNode attr.get_set with
  | none => .error .attrError
  | some nd =>
    if nd.data._type = .str "attribute set of submodules" then
      match t.subtreeOf (Attribute.from_insertion attr.get_set "<name>") with
      | .error e => .error e
      | .ok sub =>
        match relabelNodes attr.get_end sub.nodes with
        | .error e => .error e
        | .ok nodes => .ok ⟨nodes⟩
    else
      match nd.data._type with
      | .str s =>
        .ok ⟨[⟨attr, none,
          { nd.data with _type := .str (pyRemoveTrailing "s" (pyRemoveLeading "attribute set of " s)) }⟩]⟩
      | _ => .error .attrError

/-- The branch-creation walk of `_upsert_node_data` (lines 80–96): descend
along the path, creating each missing child, cloning a template branch when
the parent is an attribute set and the new segment is not the literal
`<name>`. -/
def upsertStep (t : PTree) (parent : Attribute) (k : String) : Except PyErr PTree :=
  if t.containsId (Attribute.from_insertion parent k) then .ok t
  else
    match isAttributeSet t parent with
    | .error e => .error e
    | .ok b =>
      if b && (Attribute.from_insertion parent k).get_end != "<name>" then
        match templateBranch t (Attribute.from_insertion parent k) with
        | .error e => .error e
        | .ok branch => t.paste parent branch
      else
        .ok (t.createNode (Attribute.from_insertion parent k) (some parent)
          { _type := .str "attribute set" })

def upsertWalk (t : PTree) (parent : Attribute) : List String → Except PyErr PTree
  | [] => .ok t
  | k :: rest =>
    match upsertStep t parent k with
    | .error e => .error e
    | .ok t' => upsertWalk t' (Attribute.from_insertion parent k) rest

/-- `_upsert_node_data(option_path, option_data_dict)` (lines 73–100):
create the branch when the node is absent, then merge the partial record into
the node's payload.  (The `or OptionData()` fallback of line 98 is for a
`None` payload, which no reachable node has.) -/
def upsertWalked (t : PTree) (path : Attribute) : Except PyErr PTree :=
  match t.getNode path with
  | some _ => .ok t
  | none => upsertWalk t ⟨[]⟩ path.loc

def upsertNodeData (t : PTree) (path : Attribute)
    (kvs : List (String × PyVal)) : Except PyErr PTree :=
  match upsertWalked t path with
  | .error e => .error e
  | .ok t' =>
    match t'.getNode path with
    | none => .error .attrError
    | some nd => .ok (t'.updateData path (nd.data.update kvs))

/-- The sort key of `__init__` line 51:
`str(option_path).replace('"<name>"', '')`. -/
def sysSortKey (p : Attribute × List (String × PyVal)) : List Char :=
  listReplace "\"<name>\"".toList [] (attrToString p.1).toList

/-- Phase 1 of `__init__` (lines 52–53): upsert the system option data in
sorted order. -/
def constructSystem : List (Attribute × List (String × PyVal)) → PTree →
    Except PyErr PTree
  | [], t => .ok t
  | (p, dd) :: rest, t =>
    match upsertNodeData t p dd with
    | .error e => .error e
    | .ok t' => constructSystem rest t'

/-- Phase 2 of `__init__` (lines 54–59): for each configured option whose
attribute has a node, upsert the configured definition and record it in the
configured change cache; otherwise log and skip. -/
def constructConfig : List (Attribute × PyVal) →
    PTree × List (Attribute × PyVal) →
    Except PyErr (PTree × List (Attribute × PyVal))
  | [], acc => .ok acc
  | (p, v) :: rest, (t, cc) =>
    if t.containsId p then
      match upsertNodeData t p [("configured_definition", v)] with
      | .error e => .error e
      | .ok t' => constructConfig rest (t', dictSet p v cc)
    else
      constructConfig rest (t, cc)

/-- The root-only tree created by `__init__` lines 42–43. -/
def rootTree : PTree :=
  ⟨[⟨⟨[]⟩, none, { _type := .str "attribute set" }⟩]⟩

/-- `OptionTree.__init__(system_option_data, config_options)`; the two input
maps are given as their insertion-ordered item lists. -/
def construct (sys : List (Attribute × List (String × PyVal)))
    (cfg : List (Attribute × PyVal)) : Except PyErr OptionTree :=
  match constructSystem (sortByKey sysSortKey sys) rootTree with
  | .error e => .error e
  | .ok t1 =>
    match constructConfig cfg (t1, []) with
    | .error e => .error e
    | .ok (t2, cc) =>
      .ok { tree := t2
            in_memory_change_cache := []
            configured_change_cache := cc
            change_marker := 0 }

/-- `_get_data(attribute)`: `AttributeError` when the node is absent
(`None.data`); the `ValueError` for a `None` payload is unreachable here
(payloads are never `None`). -/
def _get_data (t : PTree) (a : Attribute) : Except PyErr OptionData :=
  match t.getNode a with
  | none => .error .attrError
  | some nd => .ok nd.data

/-- `get_in_memory_definition(attribute)`. -/
def get_in_memory_definition (ot : OptionTree) (a : Attribute) :
    Except PyErr PyVal :=
  match _get_data ot.tree a with
  | .error e => .error e
  | .ok d => .ok d.in_memory_definition

/-- `get_configured_definition(attribute)`. -/
def get_configured_definition (ot : OptionTree) (a : Attribute) :
    Except PyErr PyVal :=
  match _get_data ot.tree a with
  | .error e => .error e
  | .ok d => .ok d.configured_definition

/-- `get_system_default_definition(attribute)`. -/
def get_system_default_definition (ot : OptionTree) (a : Attribute) :
    Except PyErr PyVal :=
  match _get_data ot.tree a with
  | .error e => .error e
  | .ok d => .ok d.system_default_definition

/-- Steps 3–4 of `get_definition`: the system-default fallback. -/
def getDefSysStep (ot : OptionTree) (a : Attribute) : Except PyErr PyVal :=
  match ot.get_system_default_definition a with
  | .error e => .error e
  | .ok sdd =>
    if sdd ≠ .odef .undefined then .ok sdd else .ok (.odef .undefined)

/-- Step 2 of `get_definition`: the configured layer, when included. -/
def getDefCfgStep (ot : OptionTree) (a : Attribute)
    (include_configured_change : Bool) : Except PyErr PyVal :=
  if include_configured_change then
    match ot.get_configured_definition a with
    | .error e => .error e
    | .ok cd => if cd ≠ .odef .undefined then .ok cd else getDefSysStep ot a
  else getDefSysStep ot a

/-- `get_definition(attribute, include_in_memory_definition,
include_configured_change)` (lines 185–200), preserving the source's
control flow including the second accessor call on the in-memory return
path. -/
def get_definition (ot : OptionTree) (a : Attribute)
    (include_in_memory_definition include_configured_change : Bool) :
    Except PyErr PyVal :=
  if include_in_memory_definition then
    match ot.get_in_memory_definition a with
    | .error e => .error e
    | .ok imd =>
      if imd ≠ .odef .undefined then ot.get_in_memory_definition a
      else getDefCfgStep ot a include_configured_change
  else getDefCfgStep ot a include_configured_change

/-- `_update_in_memory_change_cache(attribute, option_definition)` plus
`set_definition(option_path, option_definition)` (lines 64–71, 181–183):
upsert the in-memory definition, then recompute the cache entry and bump the
change marker (the unconditional `uuid.uuid4()`). -/
def set_definition (ot : OptionTree) (path : Attribute) (v : PyVal) :
    Except PyErr OptionTree :=
  match upsertNodeData ot.tree path [("in_memory_definition", v)] with
  | .error e => .error e
  | .ok t =>
    match t.getNode path with
    | none => .error .attrError
    | some nd =>
      let cache :=
        if nd.data.in_memory_definition = nd.data.configured_definition then
          dictDel path ot.in_memory_change_cache
        else dictSet path v ot.in_memory_change_cache
      .ok { ot with
              tree := t
              in_memory_change_cache := cache
              change_marker := ot.change_marker + 1 }

/-- `insert_attribute(attribute)`: upsert with an empty update (does not
touch the caches or the change marker). -/
def insert_attribute (ot : OptionTree) (a : Attribute) : Except PyErr OptionTree :=
  match upsertNodeData ot.tree a [] with
  | .error e => .error e
  | .ok t => .ok { ot with tree := t }

/-- The recursion of `rename_attribute` (lines 174–179): relabel the node,
then rename each child (computed after the relabel) to the new prefix plus
its last segment.  `fuel` bounds the recursion; the wrapper passes more fuel
than any acyclic arena can consume. -/
def renameAux : Nat → PTree → Attribute → Attribute → Except PyErr PTree
  | 0, _, _, _ => .error .outOfFuel
  | fuel + 1, t, old, new =>
    match t.updateNodeIdent old new with
    | .error e => .error e
    | .ok t' =>
      (t'.childrenOf new).foldlM
        (fun acc c =>
          renameAux fuel acc c.ident (Attribute.from_insertion new c.ident.get_end))
        t'

/-- `rename_attribute(old_attribute, new_attribute)` (does not touch the
caches or the change marker). -/
def rename_attribute (ot : OptionTree) (old new : Attribute) :
    Except PyErr OptionTree :=
  match renameAux (ot.tree.nodes.length + 1) ot.tree old new with
  | .error e => .error e
  | .ok t => .ok { ot with tree := t }

/-- The loop body of `iter_changes` over one cache: for each cached
attribute in order, recompute the old definition with the other layer
suppressed, and yield the triple when the cached value differs.  Errors
surface at the element that raises, before later elements are processed, as
when consuming the Python generator. -/
def iterChangesGo (ot : OptionTree) (get_configured_changes : Bool) :
    List (Attribute × PyVal) → Except PyErr (List (Attribute × PyVal × PyVal))
  | [] => .ok []
  | (attr, newDef) :: rest =>
    match ot.get_definition attr false (!get_configured_changes) with
    | .error e => .error e
    | .ok oldDef =>
      match iterChangesGo ot get_configured_changes rest with
      | .error e => .error e
      | .ok tl =>
        .ok (if newDef ≠ oldDef then (attr, oldDef, newDef) :: tl else tl)

/-- `iter_changes(get_configured_changes)` (lines 140–152), as the list of
yielded `(attribute, old, new)` triples. -/
def iter_changes (ot : OptionTree) (get_configured_changes : Bool) :
    Except PyErr (List (Attribute × PyVal × PyVal)) :=
  iterChangesGo ot get_configured_changes
    (if get_configured_changes then ot.configured_change_cache
     else ot.in_memory_change_cache)

/-- `get_change_set_with_ancestors(get_configured_changes)` (lines 154–160):
the set of `attr[:i]` for each yielded change and each `i < len(attr)`.
The `functools.lru_cache` memo (keyed through `__hash__` by the change
marker) caches this pure computation and is not part of the value
semantics. -/
def get_change_set_with_ancestors (ot : OptionTree)
    (get_configured_changes : Bool) : Except PyErr (List Attribute) :=
  match ot.iter_changes get_configured_changes with
  | .error e => .error e
  | .ok l =>
    .ok (l.foldl
      (fun s trip =>
        (List.range trip.1.loc.length).foldl
          (fun s i => setAdd ⟨trip.1.loc.take i⟩ s) s)
      [])

/-- `iter_attribute_data()` (lines 162–165): every node whose tag does not
contain `<name>`, in arena order. -/
def iter_attribute_data (ot : OptionTree) : List (Attribute × OptionData) :=
  ot.tree.nodes.filterMap (fun n =>
    if attrHas "<name>" n.ident then none else some (n.ident, n.data))

/-- `iter_attributes()` (lines 167–169). -/
def iter_attributes (ot : OptionTree) : List Attribute :=
  (ot.iter_attribute_data).map (·.1)

/-- The `try` block of `children`: direct children, descendant leaves, or
the `ValueError` of an unrecognized mode. -/
def childrenBody (ot : OptionTree) (a : Attribute) (mode : String) :
    Except PyErr (List TNode) :=
  if mode = "direct" then
    match ot.tree.getNode a with
    | none => .error .nodeIDAbsent
    | some _ => .ok (ot.tree.childrenOf a)
  else if mode = "leaves" then ot.tree.leavesOf a
  else .error .valueError

/-- `children(attribute, mode)` (lines 220–241).  Any exception escaping the
`try` block — the `ValueError` of an unrecognized mode as well as treelib's
`NodeIDAbsentError` — triggers evaluation of the `except` clause, whose
expression `treelib.exceptions.NodeIDAbsentError` names the unbound module
`treelib` and therefore raises `NameError('treelib')`; so every failure path
surfaces as that same `NameError`.  The result excludes nodes whose tag
contains `'"<name>"'` (quotes included). -/
def children (ot : OptionTree) (a : Attribute) (mode : String) :
    Except PyErr (List (Attribute × OptionData)) :=
  match childrenBody ot a mode with
  | .error _ => .error (.nameError "treelib")
  | .ok cs =>
    .ok (cs.filterMap (fun n =>
      if attrHas "\"<name>\"" n.ident then none else some (n.ident, n.data)))

/-- Python `children_dict[0]`: the integer key `0` is compared against the
`Attribute` keys of the dict; an `Attribute` never equals an integer, so the
lookup is a `KeyError` whenever it is reached. -/
def attrEqInt (_ : Attribute) (_ : Int) : Bool := false

/-- `get_next_branching_option(attribute)` (lines 243–246).  When the node
has exactly one (non-template) child the loop body evaluates
`self.children(attribute)[0]`, a dict lookup with the integer key `0`, which
raises `KeyError`; so the loop body can never complete an iteration and the
embedding needs no fuel.  (Were the lookup ever to succeed, Python would
continue the loop with a non-`Attribute` value; that branch is unreachable
because `attrEqInt` is constantly false.) -/
def get_next_branching_option (ot : OptionTree) (a : Attribute) :
    Except PyErr Attribute :=
  match ot.children a "direct" with
  | .error e => .error e
  | .ok cs =>
    if cs.length = 1 then
      match cs.find? (fun p => attrEqInt p.1 0) with
      | some _ => .error .typeError
      | none => .error .keyError
    else .ok a

end OptionTree

/-! ## Lemmas about the string machinery -/

theorem listStarts_self_append (p v : List Char) : listStarts p (p ++ v) = true := by
  induction p with
  | nil => rfl
  | cons c cs ih => simp [listStarts, ih]

theorem listSub_of_starts {p l : List Char} (h : listStarts p l = true) :
    listSub p l = true := by
  cases l with
  | nil => exact h
  | cons c cs => simp [listSub, h]

theorem listSub_of_split (p : List Char) :
    ∀ u v : List Char, listSub p (u ++ p ++ v) = true := by
  intro u
  induction u with
  | nil =>
    intro v
    exact listSub_of_starts (by simpa using listStarts_self_append p v)
  | cons c cs ih =>
    intro v
    have : listSub p (c :: (cs ++ p ++ v)) = true := by
      have h2 := ih v
      simp [listSub]
      rw [show cs ++ (p ++ v) = cs ++ p ++ v from by simp] at *
      rw [h2]
      simp
    simpa using this

theorem joinDotList_mem_split {s : String} {ss : List String} (h : s ∈ ss) :
    ∃ u v : List Char, joinDotList ss = u ++ s.toList ++ v := by
  induction ss with
  | nil => cases h
  | cons x xs ih =>
    rcases List.mem_cons.mp h with rfl | hmem
    · cases xs with
      | nil => exact ⟨[], [], by simp [joinDotList]⟩
      | cons y ys => exact ⟨[], '.' :: joinDotList (y :: ys), by simp [joinDotList]⟩
    · cases xs with
      | nil => cases hmem
      | cons y ys =>
        obtain ⟨u, v, hu⟩ := ih hmem
        exact ⟨x.toList ++ '.' :: u, v, by simp [joinDotList, hu]⟩

theorem strIn_attrToString_of_mem {s : String} {a : Attribute} (h : s ∈ a.loc.map renderSeg) :
    strIn s (attrToString a) = true := by
  obtain ⟨u, v, hu⟩ := joinDotList_mem_split h
  show listSub s.toList (String.mk (joinDotList (a.loc.map renderSeg))).toList = true
  rw [show (String.mk (joinDotList (a.loc.map renderSeg))).toList
        = joinDotList (a.loc.map renderSeg) from rfl, hu]
  exact listSub_of_split _ u v

/-- A path containing the `<name>` segment renders with the quoted
`"<name>"` as a substring, so both the unquoted filter of
`iter_attribute_data` and the quoted filter of `children` match it. -/
theorem attrHas_name_of_mem {a : Attribute} (h : "<name>" ∈ a.loc) :
    attrHas "<name>" a = true ∧ attrHas "\"<name>\"" a = true := by
  have hq : ("\"<name>\"" : String) ∈ a.loc.map renderSeg := by
    have : renderSeg "<name>" = "\"<name>\"" := by decide
    exact this ▸ List.mem_map_of_mem renderSeg h
  have h2 : attrHas "\"<name>\"" a = true := strIn_attrToString_of_mem hq
  refine ⟨?_, h2⟩
  obtain ⟨u, v, hu⟩ := joinDotList_mem_split hq
  have hsplit : ("\"<name>\"" : String).toList
      = ['\"'] ++ ("<name>" : String).toList ++ ['\"'] := by decide
  show listSub ("<name>" : String).toList (attrToString a).toList = true
  rw [show (attrToString a).toList = joinDotList (a.loc.map renderSeg) from rfl, hu,
    hsplit]
  rw [show u ++ (['\"'] ++ ("<name>" : String).toList ++ ['\"']) ++ v
        = (u ++ ['\"']) ++ ("<name>" : String).toList ++ (['\"'] ++ v) from by simp]
  exact listSub_of_split _ _ _

/-! ## Lemmas about the dict, set and arena helpers -/

theorem fst_map_dictSetUpdate (k : Attribute) (v : PyVal)
    (l : List (Attribute × PyVal)) :
    (l.map (fun p => if p.1 == k then (k, v) else p)).map (·.1) = l.map (·.1) := by
  induction l with
  | nil => rfl
  | cons p ps ih =>
    by_cases hpk : p.1 == k
    · have hk : p.1 = k := beq_iff_eq.mp hpk
      simp only [List.map_cons, if_pos hpk, ih]
      rw [hk]
    · simp only [List.map_cons, if_neg hpk, ih]

theorem keys_dictSet (k : Attribute) (v : PyVal) (l : List (Attribute × PyVal))
    (x : Attribute) :
    x ∈ (dictSet k v l).map (·.1) ↔ x = k ∨ x ∈ l.map (·.1) := by
  unfold dictSet
  split
  · next hany =>
    rw [fst_map_dictSetUpdate]
    constructor
    · exact fun h => Or.inr h
    · rintro (rfl | h)
      · rcases List.any_eq_true.mp hany with ⟨q, hq, hqk⟩
        exact List.mem_map.mpr ⟨q, hq, beq_iff_eq.mp hqk⟩
      · exact h
  · simp only [List.map_append, List.mem_append, List.map_cons, List.map_nil,
      List.mem_singleton]
    tauto

theorem keys_dictDel (k : Attribute) (l : List (Attribute × PyVal)) :
    k ∉ (dictDel k l).map (·.1) := by
  unfold dictDel
  intro h
  rcases List.mem_map.mp h with ⟨p, hp, hx⟩
  rcases List.mem_filter.mp hp with ⟨_, hcond⟩
  simp [hx] at hcond

theorem mem_setAdd (x y : Attribute) (s : List Attribute) :
    y ∈ setAdd x s ↔ y = x ∨ y ∈ s := by
  unfold setAdd
  split
  · next hmem =>
    constructor
    · exact fun h => Or.inr h
    · rintro (rfl | h) <;> assumption
  · simp only [List.mem_append, List.mem_singleton]
    tauto

theorem getNode_mem {t : PTree} {a : Attribute} {n : TNode}
    (h : t.getNode a = some n) : n ∈ t.nodes :=
  List.mem_of_find?_eq_some h

theorem ident_of_getNode {t : PTree} {a : Attribute} {n : TNode}
    (h : t.getNode a = some n) : n.ident = a := by
  have := List.find?_some h
  simpa using this

theorem find_map_updateData (a : Attribute) (d : OptionData) :
    ∀ (ns : List TNode) (n : TNode),
      ns.find? (fun m => m.ident == a) = some n →
      (ns.map (fun m => if m.ident == a then { m with data := d } else m)).find?
          (fun m => m.ident == a) = some { n with data := d } := by
  intro ns
  induction ns with
  | nil => intro n h; cases h
  | cons m ms ih =>
    intro n h
    by_cases hm : m.ident == a
    · rw [@List.find?_cons_of_pos _ (fun m : TNode => m.ident == a) m ms hm] at h
      cases h
      simp only [List.map_cons, if_pos hm]
      exact @List.find?_cons_of_pos _ (fun m : TNode => m.ident == a)
        { m with data := d } _ hm
    · rw [@List.find?_cons_of_neg _ (fun m : TNode => m.ident == a) m ms hm] at h
      simp only [List.map_cons, if_neg hm]
      rw [@List.find?_cons_of_neg _ (fun m : TNode => m.ident == a) m _ hm]
      exact ih n h

theorem getNode_updateData_self {t : PTree} {a : Attribute} {n : TNode} (d : OptionData)
    (h : t.getNode a = some n) :
    (t.updateData a d).getNode a = some { n with data := d } :=
  find_map_updateData a d t.nodes n h

theorem isSome_find_map_updateData (a : Attribute) (d : OptionData) (x : Attribute) :
    ∀ ns : List TNode,
      ((ns.map (fun m => if m.ident == a then { m with data := d } else m)).find?
          (fun m => m.ident == x)).isSome
        = (ns.find? (fun m => m.ident == x)).isSome := by
  intro ns
  induction ns with
  | nil => rfl
  | cons m ms ih =>
    by_cases hm : m.ident == a
    · by_cases hx : m.ident == x
      · simp only [List.map_cons, if_pos hm]
        rw [@List.find?_cons_of_pos _ (fun m : TNode => m.ident == x)
            { m with data := d } _ hx,
          @List.find?_cons_of_pos _ (fun m : TNode => m.ident == x) m ms hx]
        rfl
      · simp only [List.map_cons, if_pos hm]
        rw [@List.find?_cons_of_neg _ (fun m : TNode => m.ident == x)
            { m with data := d } _ hx,
          @List.find?_cons_of_neg _ (fun m : TNode => m.ident == x) m ms hx]
        exact ih
    · by_cases hx : m.ident == x
      · simp only [List.map_cons, if_neg hm]
        rw [@List.find?_cons_of_pos _ (fun m : TNode => m.ident == x) m _ hx,
          @List.find?_cons_of_pos _ (fun m : TNode => m.ident == x) m ms hx]
      · simp only [List.map_cons, if_neg hm]
        rw [@List.find?_cons_of_neg _ (fun m : TNode => m.ident == x) m _ hx,
          @List.find?_cons_of_neg _ (fun m : TNode => m.ident == x) m ms hx]
        exact ih

theorem containsId_updateData (t : PTree) (a : Attribute) (d : OptionData)
    (x : Attribute) :
    (t.updateData a d).containsId x = t.containsId x :=
  isSome_find_map_updateData a d x t.nodes

/-! ## Lemmas about change enumeration -/

/-- Every triple yielded by the `iter_changes` loop has its attribute among
the keys of the iterated cache. -/
theorem iterChangesGo_keys (ot : OptionTree) (gcc : Bool) :
    ∀ (cache : List (Attribute × PyVal)) (l : List (Attribute × PyVal × PyVal)),
      OptionTree.iterChangesGo ot gcc cache = .ok l →
      ∀ trip ∈ l, trip.1 ∈ cache.map (·.1) := by
  intro cache
  induction cache with
  | nil =>
    intro l h trip htrip
    cases h
    cases htrip
  | cons p ps ih =>
    intro l h trip htrip
    unfold OptionTree.iterChangesGo at h
    rcases hdef : ot.get_definition p.1 false (!gcc) with e | oldDef <;> rw [hdef] at h
    · cases h
    rcases hrest : OptionTree.iterChangesGo ot gcc ps with e | tl <;> rw [hrest] at h
    · cases h
    cases h
    by_cases hne : p.2 ≠ oldDef
    · rw [if_pos hne] at htrip
      rcases List.mem_cons.mp htrip with rfl | hmem
      · exact List.mem_map.mpr ⟨p, List.mem_cons_self _ _, rfl⟩
      · exact List.mem_cons_of_mem _ (by
          rcases List.mem_map.mp (ih tl hrest trip hmem) with ⟨q, hq, hx⟩
          exact List.mem_map.mpr ⟨q, hq, hx⟩)
    · rw [if_neg hne] at htrip
      exact List.mem_cons_of_mem _ (by
        rcases List.mem_map.mp (ih tl hrest trip htrip) with ⟨q, hq, hx⟩
        exact List.mem_map.mpr ⟨q, hq, hx⟩)

/-- Membership in the inner loop of `get_change_set_with_ancestors`
(`for i in range(len(attr)): s.add(attr[:i])`). -/
theorem mem_prefixFold (f : Nat → Attribute) :
    ∀ (is : List Nat) (s : List Attribute) (y : Attribute),
      y ∈ is.foldl (fun s i => setAdd (f i) s) s ↔ y ∈ s ∨ ∃ i ∈ is, y = f i := by
  intro is
  induction is with
  | nil => intro s y; simp
  | cons i js ih =>
    intro s y
    simp only [List.foldl_cons]
    rw [ih]
    rw [mem_setAdd]
    constructor
    · rintro ((rfl | hs) | ⟨j, hj, rfl⟩)
      · exact Or.inr ⟨i, List.mem_cons_self _ _, rfl⟩
      · exact Or.inl hs
      · exact Or.inr ⟨j, List.mem_cons_of_mem _ hj, rfl⟩
    · rintro (hs | ⟨j, hj, rfl⟩)
      · exact Or.inl (Or.inr hs)
      · rcases List.mem_cons.mp hj with rfl | hj
        · exact Or.inl (Or.inl rfl)
        · exact Or.inr ⟨j, hj, rfl⟩

/-- Membership in the outer loop of `get_change_set_with_ancestors`. -/
theorem mem_ancestorFold :
    ∀ (l : List (Attribute × PyVal × PyVal)) (s : List Attribute) (y : Attribute),
      y ∈ l.foldl
          (fun s trip =>
            (List.range trip.1.loc.length).foldl
              (fun s i => setAdd ⟨trip.1.loc.take i⟩ s) s) s
        ↔ y ∈ s ∨ ∃ trip ∈ l, ∃ i < trip.1.loc.length, y = ⟨trip.1.loc.take i⟩ := by
  intro l
  induction l with
  | nil => intro s y; simp
  | cons t ts ih =>
    intro s y
    simp only [List.foldl_cons]
    rw [ih, mem_prefixFold]
    constructor
    · rintro ((hs | ⟨i, hi, rfl⟩) | ⟨trip, htrip, i, hi, rfl⟩)
      · exact Or.inl hs
      · exact Or.inr ⟨t, List.mem_cons_self _ _, i, List.mem_range.mp hi, rfl⟩
      · exact Or.inr ⟨trip, List.mem_cons_of_mem _ htrip, i, hi, rfl⟩
    · rintro (hs | ⟨trip, htrip, i, hi, rfl⟩)
      · exact Or.inl (Or.inl hs)
      · rcases List.mem_cons.mp htrip with rfl | htrip
        · exact Or.inl (Or.inr ⟨i, List.mem_range.mpr hi, rfl⟩)
        · exact Or.inr ⟨trip, htrip, i, hi, rfl⟩

/-! ## Lemmas about `OptionData.update` -/

/-- A key drawn from the dictionaries that construction and the definition
setters feed to `OptionData.update` never writes the
`system_default_definition` slot; in particular the `default` metadata key is
simply ignored. -/
theorem updateStep_sdd (d : OptionData) (k : String) (v : PyVal)
    (h : k ∈ ["description", "readOnly", "type", "default",
              "configured_definition", "in_memory_definition"]) :
    (updateStep d (k, v)).system_default_definition
      = d.system_default_definition := by
  fin_cases h <;> rfl

theorem update_sdd (d : OptionData) (kvs : List (String × PyVal))
    (h : ∀ kv ∈ kvs, kv.1 ∈ ["description", "readOnly", "type", "default",
              "configured_definition", "in_memory_definition"]) :
    (d.update kvs).system_default_definition = d.system_default_definition := by
  unfold OptionData.update
  induction kvs generalizing d with
  | nil => rfl
  | cons kv rest ih =>
    rw [List.foldl_cons]
    rw [ih (updateStep d kv) (fun kv2 h2 => h kv2 (List.mem_cons_of_mem _ h2))]
    exact updateStep_sdd d kv.1 kv.2 (h kv (List.mem_cons_self _ _))

/-- Keys that match neither a field name nor an underscore-prefixed field
name are ignored entirely. -/
theorem update_of_no_field (d : OptionData) (kvs : List (String × PyVal))
    (h : ∀ kv ∈ kvs, hasattrF kv.1 = false ∧ hasattrF ("_" ++ kv.1) = false) :
    d.update kvs = d := by
  unfold OptionData.update
  induction kvs generalizing d with
  | nil => rfl
  | cons kv rest ih =>
    rw [List.foldl_cons]
    have hk := h kv (List.mem_cons_self _ _)
    have hstep : updateStep d kv = d := by
      unfold updateStep
      rw [hk.1, hk.2]
      simp
    rw [hstep]
    exact ih d (fun kv2 h2 => h kv2 (List.mem_cons_of_mem _ h2))

/-! ## Sorting lemmas -/

theorem mem_insertByKey {α : Type} (key : α → List Char) (x y : α) (l : List α) :
    y ∈ insertByKey key x l ↔ y = x ∨ y ∈ l := by
  induction l with
  | nil => simp [insertByKey]
  | cons z zs ih =>
    unfold insertByKey
    split
    · simp
    · rw [List.mem_cons, ih, List.mem_cons]
      tauto

theorem mem_sortByKey {α : Type} (key : α → List Char) (y : α) (l : List α) :
    y ∈ sortByKey key l ↔ y ∈ l := by
  induction l with
  | nil => simp [sortByKey]
  | cons x xs ih =>
    unfold sortByKey
    rw [mem_insertByKey, ih, List.mem_cons]

/-! ## Construction lemmas -/

/-- `_upsert_node_data` on an attribute that already has a node: the walk is
skipped and the call always succeeds with a pure payload merge. -/
theorem upsertNodeData_contained {t : PTree} {p : Attribute} {nd : TNode}
    (kvs : List (String × PyVal)) (h : t.getNode p = some nd) :
    OptionTree.upsertNodeData t p kvs = .ok (t.updateData p (nd.data.update kvs)) := by
  have hw : OptionTree.upsertWalked t p = .ok t := by
    unfold OptionTree.upsertWalked
    rw [h]
  unfold OptionTree.upsertNodeData
  rw [hw]
  show (match t.getNode p with
    | none => (Except.error PyErr.attrError : Except PyErr PTree)
    | some nd => Except.ok (t.updateData p (nd.data.update kvs)))
      = Except.ok (t.updateData p (nd.data.update kvs))
  rw [h]

/-- What phase 2 of construction does to the configured change cache: the
node set of the tree is untouched, and the final cache keys are the initial
ones plus exactly the configured attributes that have a node. -/
theorem constructConfig_spec :
    ∀ (cfg : List (Attribute × PyVal)) (t : PTree) (cc : List (Attribute × PyVal))
      (out : PTree × List (Attribute × PyVal)),
      OptionTree.constructConfig cfg (t, cc) = .ok out →
      (∀ x, out.1.containsId x = t.containsId x) ∧
      (∀ a, a ∈ out.2.map (·.1) ↔
        a ∈ cc.map (·.1) ∨ (a ∈ cfg.map (·.1) ∧ t.containsId a = true)) := by
  intro cfg
  induction cfg with
  | nil =>
    intro t cc out h
    cases h
    exact ⟨fun x => rfl, fun a => by simp⟩
  | cons pv rest ih =>
    intro t cc out h
    rcases pv with ⟨p, v⟩
    unfold OptionTree.constructConfig at h
    by_cases hp : t.containsId p
    · rw [if_pos hp] at h
      rcases Option.isSome_iff_exists.mp hp with ⟨nd, hnd⟩
      rw [upsertNodeData_contained _ hnd] at h
      obtain ⟨hcont, hkeys⟩ := ih _ _ _ h
      refine ⟨fun x => by rw [hcont x, containsId_updateData], fun a => ?_⟩
      rw [hkeys a, keys_dictSet, containsId_updateData]
      constructor
      · rintro ((rfl | hcc) | ⟨hrest, hc⟩)
        · exact Or.inr ⟨List.mem_map.mpr ⟨_, List.mem_cons_self _ _, rfl⟩, hp⟩
        · exact Or.inl hcc
        · refine Or.inr ⟨?_, hc⟩
          rcases List.mem_map.mp hrest with ⟨q, hq, hqa⟩
          exact List.mem_map.mpr ⟨q, List.mem_cons_of_mem _ hq, hqa⟩
      · rintro (hcc | ⟨hmem, hc⟩)
        · exact Or.inl (Or.inr hcc)
        · rcases List.mem_map.mp hmem with ⟨q, hq, hqa⟩
          rcases List.mem_cons.mp hq with rfl | hq2
          · exact Or.inl (Or.inl hqa.symm)
          · exact Or.inr ⟨List.mem_map.mpr ⟨q, hq2, hqa⟩, hc⟩
    · rw [if_neg hp] at h
      obtain ⟨hcont, hkeys⟩ := ih _ _ _ h
      refine ⟨hcont, fun a => ?_⟩
      rw [hkeys a]
      constructor
      · rintro (hcc | ⟨hrest, hc⟩)
        · exact Or.inl hcc
        · refine Or.inr ⟨?_, hc⟩
          rcases List.mem_map.mp hrest with ⟨q, hq, hqa⟩
          exact List.mem_map.mpr ⟨q, List.mem_cons_of_mem _ hq, hqa⟩
      · rintro (hcc | ⟨hmem, hc⟩)
        · exact Or.inl hcc
        · rcases List.mem_map.mp hmem with ⟨q, hq, hqa⟩
          rcases List.mem_cons.mp hq with rfl | hq2
          · exact absurd (hqa ▸ hc) (by simpa using hp)
          · exact Or.inr ⟨List.mem_map.mpr ⟨q, hq2, hqa⟩, hc⟩

/-! ## The system-default invariant (no construction input ever writes the
`system_default_definition` slot, because the evaluator's metadata key is
`default`, which matches no field) -/

/-- Every node of the arena has an untouched `system_default_definition`. -/
def SddUndef (t : PTree) : Prop :=
  ∀ n ∈ t.nodes, n.data.system_default_definition = .odef .undefined

theorem sddUndef_rootTree : SddUndef OptionTree.rootTree := by
  intro n hn
  rcases List.mem_singleton.mp hn with rfl
  rfl

theorem descendFrom_subset (t : PTree) :
    ∀ (fuel : Nat) (a : Attribute), ∀ n ∈ t.descendFrom fuel a, n ∈ t.nodes := by
  intro fuel
  induction fuel with
  | zero => intro a n h; cases h
  | succ f ih =>
    intro a n h
    unfold PTree.descendFrom at h
    have aux : ∀ cs : List TNode, (∀ c ∈ cs, c ∈ t.nodes) →
        ∀ m ∈ cs.foldr (fun c acc => c :: (t.descendFrom f c.ident ++ acc)) [],
          m ∈ t.nodes := by
      intro cs
      induction cs with
      | nil => intro _ m hm; cases hm
      | cons c cs2 ih2 =>
        intro hcs m hm
        simp only [List.foldr_cons] at hm
        rcases List.mem_cons.mp hm with rfl | hm2
        · exact hcs m (List.mem_cons_self _ _)
        · rcases List.mem_append.mp hm2 with hd | ha
          · exact ih c.ident m hd
          · exact ih2 (fun c2 h2 => hcs c2 (List.mem_cons_of_mem _ h2)) m ha
    exact aux (t.childrenOf a) (fun c hc => (List.mem_filter.mp hc).1) n h

theorem subtreeOf_data {t : PTree} {a : Attribute} {sub : PTree}
    (h : t.subtreeOf a = .ok sub) :
    ∀ n ∈ sub.nodes, ∃ m ∈ t.nodes, n.data = m.data := by
  unfold PTree.subtreeOf at h
  split at h
  · cases h
  · rename_i nd hg
    cases h
    intro n hn
    rcases List.mem_cons.mp hn with rfl | hn2
    · exact ⟨nd, getNode_mem hg, rfl⟩
    · exact ⟨n, descendFrom_subset t _ _ n hn2, rfl⟩

theorem relabelNodes_data (seg : String) :
    ∀ (ns ns' : List TNode), OptionTree.relabelNodes seg ns = .ok ns' →
      ∀ n' ∈ ns', ∃ n ∈ ns, n'.data = n.data := by
  intro ns
  induction ns with
  | nil =>
    intro ns' h n' hn'
    cases h
    cases hn'
  | cons n rest ih =>
    intro ns' h n' hn'
    unfold OptionTree.relabelNodes at h
    split at h
    · cases h
    · rename_i loc2 h1
      split at h
      · split at h
        · cases h
        · rename_i rest2 h2
          cases h
          rcases List.mem_cons.mp hn' with rfl | hmem
          · exact ⟨n, List.mem_cons_self _ _, rfl⟩
          · rcases ih rest2 h2 n' hmem with ⟨m, hm, hd⟩
            exact ⟨m, List.mem_cons_of_mem _ hm, hd⟩
      · split at h
        · cases h
        · rename_i ploc2 h3
          split at h
          · cases h
          · rename_i rest2 h2
            cases h
            rcases List.mem_cons.mp hn' with rfl | hmem
            · exact ⟨n, List.mem_cons_self _ _, rfl⟩
            · rcases ih rest2 h2 n' hmem with ⟨m, hm, hd⟩
              exact ⟨m, List.mem_cons_of_mem _ hm, hd⟩

theorem templateBranch_sdd {t : PTree} {a : Attribute} {b : PTree}
    (h : OptionTree.templateBranch t a = .ok b) (hinv : SddUndef t) :
    ∀ n ∈ b.nodes, n.data.system_default_definition = .odef .undefined := by
  unfold OptionTree.templateBranch at h
  split at h
  · cases h
  · rename_i nd hg
    split at h
    · split at h
      · cases h
      · rename_i sub hs
        split at h
        · cases h
        · rename_i nodes hr
          cases h
          intro n hn
          rcases relabelNodes_data _ _ _ hr n hn with ⟨m, hm, hdata⟩
          rcases subtreeOf_data hs m hm with ⟨m2, hm2, hdata2⟩
          rw [hdata, hdata2]
          exact hinv m2 hm2
    · split at h
      · rename_i s ht
        cases h
        intro n hn
        rcases List.mem_singleton.mp hn with rfl
        exact hinv nd (getNode_mem hg)
      · cases h

theorem paste_sddUndef {t : PTree} {target : Attribute} {b t' : PTree}
    (h : t.paste target b = .ok t') (hinv : SddUndef t)
    (hb : ∀ n ∈ b.nodes, n.data.system_default_definition = .odef .undefined) :
    SddUndef t' := by
  unfold PTree.paste at h
  split at h
  · cases h
  cases h
  intro n hn
  rcases List.mem_append.mp hn with hl | hr
  · exact hinv n hl
  · rcases List.mem_map.mp hr with ⟨m, hm, hmap⟩
    have hd : n.data = m.data := by
      rcases hp : m.parent with _ | pa <;> rw [hp] at hmap <;> rw [← hmap]
    rw [hd]
    exact hb m hm

theorem createNode_sddUndef {t : PTree} (a : Attribute) (p : Option Attribute)
    {d : OptionData} (hinv : SddUndef t)
    (hd : d.system_default_definition = .odef .undefined) :
    SddUndef (t.createNode a p d) := by
  intro n hn
  rcases List.mem_append.mp hn with hl | hr
  · exact hinv n hl
  · rcases List.mem_singleton.mp hr with rfl
    exact hd

theorem updateData_sddUndef {t : PTree} (a : Attribute) {d : OptionData}
    (hinv : SddUndef t)
    (hd : d.system_default_definition = .odef .undefined) :
    SddUndef (t.updateData a d) := by
  intro n hn
  rcases List.mem_map.mp hn with ⟨m, hm, hmap⟩
  by_cases hma : m.ident == a
  · rw [if_pos hma] at hmap
    rw [← hmap]
    exact hd
  · rw [if_neg hma] at hmap
    rw [← hmap]
    exact hinv m hm

theorem upsertStep_sddUndef {t : PTree} {parent : Attribute} {k : String} {t' : PTree}
    (hinv : SddUndef t) (h : OptionTree.upsertStep t parent k = .ok t') :
    SddUndef t' := by
  unfold OptionTree.upsertStep at h
  split at h
  · cases h
    exact hinv
  · split at h
    · cases h
    · rename_i b hA
      split at h
      · split at h
        · cases h
        · rename_i branch hT
          exact paste_sddUndef h hinv (templateBranch_sdd hT hinv)
      · cases h
        exact createNode_sddUndef _ _ hinv rfl

theorem upsertWalk_sddUndef :
    ∀ (segs : List String) (t : PTree) (parent : Attribute) (t' : PTree),
      SddUndef t → OptionTree.upsertWalk t parent segs = .ok t' → SddUndef t' := by
  intro segs
  induction segs with
  | nil =>
    intro t parent t' hinv h
    cases h
    exact hinv
  | cons k rest ih =>
    intro t parent t' hinv h
    unfold OptionTree.upsertWalk at h
    split at h
    · cases h
    · rename_i t2 hstep
      exact ih t2 _ t' (upsertStep_sddUndef hinv hstep) h

/-- Keys fed to `OptionData.update` by construction and by setters. -/
def updateKeysOK (kvs : List (String × PyVal)) : Prop :=
  ∀ kv ∈ kvs, kv.1 ∈ ["description", "readOnly", "type", "default",
      "configured_definition", "in_memory_definition"]

theorem upsertNodeData_sddUndef {t : PTree} {p : Attribute}
    {kvs : List (String × PyVal)} {t' : PTree}
    (hinv : SddUndef t) (hk : updateKeysOK kvs)
    (h : OptionTree.upsertNodeData t p kvs = .ok t') : SddUndef t' := by
  have hwalked : ∀ t2 : PTree, OptionTree.upsertWalked t p = .ok t2 → SddUndef t2 := by
    intro t2 hw
    unfold OptionTree.upsertWalked at hw
    split at hw
    · cases hw
      exact hinv
    · exact upsertWalk_sddUndef _ _ _ _ hinv hw
  unfold OptionTree.upsertNodeData at h
  split at h
  · cases h
  · rename_i t2 hw
    have hinv2 := hwalked t2 hw
    split at h
    · cases h
    · rename_i nd hg
      cases h
      exact updateData_sddUndef _ hinv2
        (by rw [update_sdd _ _ hk]; exact hinv2 nd (getNode_mem hg))

theorem constructSystem_sddUndef :
    ∀ (lst : List (Attribute × List (String × PyVal))) (t t' : PTree),
      SddUndef t → (∀ e ∈ lst, updateKeysOK e.2) →
      OptionTree.constructSystem lst t = .ok t' → SddUndef t' := by
  intro lst
  induction lst with
  | nil =>
    intro t t' hinv _ h
    cases h
    exact hinv
  | cons e rest ih =>
    intro t t' hinv hk h
    rcases e with ⟨p, dd⟩
    unfold OptionTree.constructSystem at h
    split at h
    · cases h
    · rename_i t2 hu
      exact ih t2 t'
        (upsertNodeData_sddUndef hinv (hk (p, dd) (List.mem_cons_self _ _)) hu)
        (fun e2 h2 => hk e2 (List.mem_cons_of_mem _ h2)) h

theorem constructConfig_sddUndef :
    ∀ (cfg : List (Attribute × PyVal)) (t : PTree) (cc : List (Attribute × PyVal))
      (out : PTree × List (Attribute × PyVal)),
      SddUndef t → OptionTree.constructConfig cfg (t, cc) = .ok out →
      SddUndef out.1 := by
  intro cfg
  induction cfg with
  | nil =>
    intro t cc out hinv h
    cases h
    exact hinv
  | cons pv rest ih =>
    intro t cc out hinv h
    rcases pv with ⟨p, v⟩
    unfold OptionTree.constructConfig at h
    split at h
    · split at h
      · cases h
      · rename_i t2 hu
        refine ih _ _ _ ?_ h
        exact upsertNodeData_sddUndef hinv
          (by
            intro kv hkv
            rcases List.mem_singleton.mp hkv with rfl
            simp) hu
    · exact ih _ _ _ hinv h

/-- Through a full construction whose metadata dictionaries only carry the
evaluator keys, no node ever gets a `system_default_definition`. -/
theorem construct_sddUndef {sys : List (Attribute × List (String × PyVal))}
    {cfg : List (Attribute × PyVal)} {ot : OptionTree}
    (hk : ∀ e ∈ sys, ∀ kv ∈ e.2,
      kv.1 ∈ ["description", "readOnly", "type", "default"])
    (h : OptionTree.construct sys cfg = .ok ot) : SddUndef ot.tree := by
  unfold OptionTree.construct at h
  split at h
  · cases h
  · rename_i t1 h1
    split at h
    · cases h
    · rename_i out t2 cc h2
      cases h
      have hsys : SddUndef t1 := by
        refine constructSystem_sddUndef _ _ _ sddUndef_rootTree ?_ h1
        intro e he kv hkv
        have he2 : e ∈ sys := (mem_sortByKey _ _ _).mp he
        have hmem := hk e he2 kv hkv
        simp only [List.mem_cons, List.mem_singleton, List.not_mem_nil, or_false] at hmem ⊢
        tauto
      exact constructConfig_sddUndef _ _ _ _ hsys h2

/-! ## Concrete fixtures

Small `OptionTree` states used as witnesses and counterexamples.  `fixOT` is
built directly (any state, reachable or not, is a valid input to the
operations); the `c2…`/`c3…`/`c10…` fixtures go through `construct` because
their claims are about construction itself. -/

/-- Root node of the direct fixtures. -/
def fixRoot : TNode :=
  ⟨⟨[]⟩, none, { _type := .str "attribute set" }⟩

/-- A leaf `a` holding both an in-memory and a configured definition. -/
def fixNodeA : TNode :=
  ⟨⟨["a"]⟩, some ⟨[]⟩,
   { _type := .str "str"
     configured_definition := .odef (.defined "c")
     in_memory_definition := .odef (.defined "m") }⟩

/-- A two-node state with change marker `5`. -/
def fixOT : OptionTree :=
  { tree := ⟨[fixRoot, fixNodeA]⟩
    in_memory_change_cache := []
    configured_change_cache := []
    change_marker := 5 }

/-- A linear chain `root → a → a.b` (every inner node has exactly one
child). -/
def fixChainOT : OptionTree :=
  { tree := ⟨[fixRoot,
      ⟨⟨["a"]⟩, some ⟨[]⟩, { _type := .str "attribute set" }⟩,
      ⟨⟨["a", "b"]⟩, some ⟨["a"]⟩, { _type := .str "str" }⟩]⟩
    in_memory_change_cache := []
    configured_change_cache := []
    change_marker := 0 }

/-- A state whose only in-memory change sits at depth three (`a.b.c`). -/
def fixDeepOT : OptionTree :=
  { tree := ⟨[fixRoot,
      ⟨⟨["a"]⟩, some ⟨[]⟩, { _type := .str "attribute set" }⟩,
      ⟨⟨["a", "b"]⟩, some ⟨["a"]⟩, { _type := .str "attribute set" }⟩,
      ⟨⟨["a", "b", "c"]⟩, some ⟨["a", "b"]⟩,
        { _type := .str "str", in_memory_definition := .odef (.defined "v") }⟩]⟩
    in_memory_change_cache := [(⟨["a", "b", "c"]⟩, .odef (.defined "v"))]
    configured_change_cache := []
    change_marker := 0 }

/-- Construction input: one system option `a` with a configured value. -/
def c2sys : List (Attribute × List (String × PyVal)) :=
  [(⟨["a"]⟩, [("type", .str "str")])]

def c2cfg : List (Attribute × PyVal) :=
  [(⟨["a"]⟩, .odef (.defined "x"))]

def c2ot : OptionTree :=
  ((OptionTree.construct c2sys c2cfg).toOption).getD default

/-- Construction input: the configured value is itself the undefined
definition, hence equal to the (never populated) system default. -/
def c3cfg : List (Attribute × PyVal) :=
  [(⟨["a"]⟩, .odef .undefined)]

def c3ot : OptionTree :=
  ((OptionTree.construct c2sys c3cfg).toOption).getD default

def c3t1 : PTree :=
  ((OptionTree.constructSystem (sortByKey OptionTree.sysSortKey c2sys)
    OptionTree.rootTree).toOption).getD default

/-- Construction input carrying the evaluator's `default` metadata key. -/
def c10sys : List (Attribute × List (String × PyVal)) :=
  [(⟨["a"]⟩, [("type", .str "str"), ("default", .str "42")])]

def c10ot : OptionTree :=
  ((OptionTree.construct c10sys []).toOption).getD default

/-! ## Claim C4: the change marker under mutation -/

/-- C4 (code_bug evidence): `insert_attribute` and `rename_attribute` leave
the change marker untouched — only `set_definition` regenerates it — although
the claim (and the memoization of `get_change_set_with_ancestors`, keyed
through `__hash__` by this marker) requires every mutating call to regenerate
it. -/
theorem c4_marker_not_regenerated_on_insert_and_rename :
    (fixOT.insert_attribute ⟨["a"]⟩).toOption.map (·.change_marker) = some 5
    ∧ (fixOT.rename_attribute ⟨["a"]⟩ ⟨["b"]⟩).toOption.map (·.change_marker) = some 5
    ∧ (fixOT.set_definition ⟨["a"]⟩ (.odef (.defined "x"))).toOption.map
        (·.change_marker) = some 6 :=
  ⟨rfl, rfl, rfl⟩

/-! ## Claim C6: `get_next_branching_option` -/

/-- C6 (code_bug evidence): on a node with exactly one child the loop body
`attribute = self.children(attribute)[0]` is a dict lookup with the integer
key `0` and raises `KeyError`, instead of descending the single-child chain
to `a.b` as specified. -/
theorem c6_gnbo_keyerror_on_single_child :
    (fixChainOT.children ⟨[]⟩ "direct").map (·.length) = .ok 1
    ∧ fixChainOT.get_next_branching_option ⟨[]⟩ = .error .keyError :=
  ⟨rfl, rfl⟩

/-! ## Claim C2: counterexample -/

/-- C2 (counterexample): immediately after constructing with a configured
option `a = x`, the in-memory definition of `a` (undefined) differs from its
configured definition (`x`), yet the in-memory change cache is empty — the
claimed biconditional fails in the very first reachable state. -/
theorem c2_counterexample :
    OptionTree.construct c2sys c2cfg = .ok c2ot
    ∧ c2ot.get_in_memory_definition ⟨["a"]⟩ = .ok (.odef .undefined)
    ∧ c2ot.get_configured_definition ⟨["a"]⟩ = .ok (.odef (.defined "x"))
    ∧ (PyVal.odef .undefined) ≠ (PyVal.odef (.defined "x"))
    ∧ c2ot.in_memory_change_cache = [] :=
  ⟨rfl, rfl, rfl, by decide, rfl⟩

/-! ## Claim C3: counterexample -/

/-- C3 (counterexample): a configured definition equal to the system-default
definition (both undefined) is nevertheless an entry of the configured change
cache — construction caches every valid configured option without comparing
it to the system default. -/
theorem c3_counterexample :
    OptionTree.construct c2sys c3cfg = .ok c3ot
    ∧ c3ot.get_configured_definition ⟨["a"]⟩ = c3ot.get_system_default_definition ⟨["a"]⟩
    ∧ c3ot.configured_change_cache.map (·.1) = [⟨["a"]⟩] :=
  ⟨rfl, rfl, rfl⟩

/-! ## Claim C5: counterexample -/

/-- C5 (counterexample): looking up children of an absent attribute and
passing an unrecognized mode fail with the *same* error — the
`NameError('treelib')` raised by the unbound name in the `except` clause —
not with two distinct error kinds. -/
theorem c5_counterexample :
    fixOT.children ⟨["missing"]⟩ "direct" = .error (.nameError "treelib")
    ∧ fixOT.children ⟨["a"]⟩ "bogus" = .error (.nameError "treelib") :=
  ⟨rfl, rfl⟩

/-! ## Claim C1: definition resolution precedence -/

theorem get_in_memory_definition_eq {ot : OptionTree} {a : Attribute} {n : TNode}
    (h : ot.tree.getNode a = some n) :
    ot.get_in_memory_definition a = .ok n.data.in_memory_definition := by
  unfold OptionTree.get_in_memory_definition OptionTree._get_data
  rw [h]

theorem get_configured_definition_eq {ot : OptionTree} {a : Attribute} {n : TNode}
    (h : ot.tree.getNode a = some n) :
    ot.get_configured_definition a = .ok n.data.configured_definition := by
  unfold OptionTree.get_configured_definition OptionTree._get_data
  rw [h]

theorem get_system_default_definition_eq {ot : OptionTree} {a : Attribute} {n : TNode}
    (h : ot.tree.getNode a = some n) :
    ot.get_system_default_definition a = .ok n.data.system_default_definition := by
  unfold OptionTree.get_system_default_definition OptionTree._get_data
  rw [h]

/-- C1: for an attribute with a node, `get_definition` returns the in-memory
definition when that layer is included and defined, else the configured
definition when that layer is included and defined, else the system-default
definition when defined, else the undefined sentinel; a disabled inclusion
flag skips exactly its layer. -/
theorem c1_get_definition_precedence (ot : OptionTree) (a : Attribute) (n : TNode)
    (h : ot.tree.getNode a = some n) (b1 b2 : Bool) :
    ot.get_definition a b1 b2 = .ok (
      if b1 = true ∧ n.data.in_memory_definition ≠ .odef .undefined then
        n.data.in_memory_definition
      else if b2 = true ∧ n.data.configured_definition ≠ .odef .undefined then
        n.data.configured_definition
      else if n.data.system_default_definition ≠ .odef .undefined then
        n.data.system_default_definition
      else .odef .undefined) := by
  have hm := get_in_memory_definition_eq h
  have hc := get_configured_definition_eq h
  have hs := get_system_default_definition_eq h
  unfold OptionTree.get_definition OptionTree.getDefCfgStep OptionTree.getDefSysStep
  rw [hm, hc, hs]
  cases b1 <;> cases b2 <;>
    simp only [Bool.false_eq_true, if_true, if_false, false_and, true_and,
      if_neg, if_pos, reduceIte] <;>
    split_ifs <;>
    rfl

/-- C1 witness: on `fixOT` with both flags on, the in-memory definition wins. -/
theorem c1_witness :
    fixOT.get_definition ⟨["a"]⟩ true true = .ok (.odef (.defined "m")) := by
  have h := c1_get_definition_precedence fixOT ⟨["a"]⟩ fixNodeA rfl true true
  rw [h]
  rfl

/-! ## Claim C7: template paths are invisible -/

/-- C7: an attribute whose path contains the `<name>` template segment is
never produced by `iter_attribute_data`, `iter_attributes`, or `children`
(any mode), in any tree state whatsoever. -/
theorem c7_template_paths_never_enumerated (ot : OptionTree) (a : Attribute)
    (h : "<name>" ∈ a.loc) :
    (∀ d, (a, d) ∉ ot.iter_attribute_data)
    ∧ a ∉ ot.iter_attributes
    ∧ (∀ p mode l d, ot.children p mode = .ok l → (a, d) ∉ l) := by
  obtain ⟨h1, h2⟩ := attrHas_name_of_mem h
  have part1 : ∀ d, (a, d) ∉ ot.iter_attribute_data := by
    intro d hd
    unfold OptionTree.iter_attribute_data at hd
    rcases List.mem_filterMap.mp hd with ⟨nd, _, hf⟩
    by_cases hb : attrHas "<name>" nd.ident
    · rw [if_pos hb] at hf
      cases hf
    · rw [if_neg hb] at hf
      have hia : nd.ident = a := congrArg Prod.fst (Option.some.inj hf)
      exact hb (by rw [hia]; exact h1)
  refine ⟨part1, ?_, ?_⟩
  · intro ha
    unfold OptionTree.iter_attributes at ha
    rcases List.mem_map.mp ha with ⟨pair, hpair, hfst⟩
    have : pair = (a, pair.2) := by
      rw [← hfst]
    exact part1 pair.2 (this ▸ hpair)
  · intro p mode l d hok hmem
    unfold OptionTree.children at hok
    split at hok
    · cases hok
    · cases hok
      rcases List.mem_filterMap.mp hmem with ⟨nd, _, hf⟩
      by_cases hb : attrHas "\"<name>\"" nd.ident
      · rw [if_pos hb] at hf
        cases hf
      · rw [if_neg hb] at hf
        have hia : nd.ident = a := congrArg Prod.fst (Option.some.inj hf)
        exact hb (by rw [hia]; exact h2)

/-- C7 witness: the template path itself is not enumerated on `fixOT`. -/
theorem c7_witness : (⟨["<name>"]⟩ : Attribute) ∉ fixOT.iter_attributes :=
  (c7_template_paths_never_enumerated fixOT ⟨["<name>"]⟩ (by decide)).2.1

/-! ## Claim C5: `children` modes and errors (amended) -/

/-- C5 (amended): `children` fails for every unrecognized mode and for every
absent attribute, but both failures raise the one same error (the
`NameError` from the unbound `treelib` name evaluated in the `except`
clause) rather than distinct invalid-argument and not-found errors; on
success the result contains no attribute bearing the `<name>` segment. -/
theorem c5_children_errors_amended (ot : OptionTree) (a : Attribute) (mode : String) :
    (mode ≠ "direct" → mode ≠ "leaves" →
      ot.children a mode = .error (.nameError "treelib"))
    ∧ (ot.tree.getNode a = none →
      ot.children a mode = .error (.nameError "treelib"))
    ∧ (∀ l c d, ot.children a mode = .ok l → (c, d) ∈ l → "<name>" ∉ c.loc) := by
  refine ⟨?_, ?_, ?_⟩
  · intro hd hl
    unfold OptionTree.children OptionTree.childrenBody
    rw [if_neg hd, if_neg hl]
  · intro habs
    have hbody : ∃ e, OptionTree.childrenBody ot a mode = .error e := by
      unfold OptionTree.childrenBody
      by_cases hd : mode = "direct"
      · rw [if_pos hd, habs]
        exact ⟨_, rfl⟩
      · rw [if_neg hd]
        by_cases hl : mode = "leaves"
        · rw [if_pos hl]
          unfold PTree.leavesOf
          rw [habs]
          exact ⟨_, rfl⟩
        · rw [if_neg hl]
          exact ⟨_, rfl⟩
    rcases hbody with ⟨e, he⟩
    unfold OptionTree.children
    rw [he]
  · intro l c d hok hmem hname
    unfold OptionTree.children at hok
    split at hok
    · cases hok
    · cases hok
      rcases List.mem_filterMap.mp hmem with ⟨nd, _, hf⟩
      by_cases hb : attrHas "\"<name>\"" nd.ident
      · rw [if_pos hb] at hf
        cases hf
      · rw [if_neg hb] at hf
        have hia : nd.ident = c := congrArg Prod.fst (Option.some.inj hf)
        exact hb (by rw [hia]; exact (attrHas_name_of_mem hname).2)

/-- C5 witness: an unrecognized mode on a present attribute raises the
`NameError`. -/
theorem c5_witness :
    fixOT.children ⟨["a"]⟩ "weird" = .error (.nameError "treelib") :=
  (c5_children_errors_amended fixOT ⟨["a"]⟩ "weird").1 (by decide) (by decide)

/-! ## Claim C8: revert-to-saved, and the `set_definition` cache step -/

/-- What one successful `set_definition` call does, read off the source:
the tree is the upserted one, the marker is regenerated, and the in-memory
cache entry for the attribute is recomputed from the updated node. -/
theorem set_definition_spec (ot : OptionTree) (a : Attribute) (v : PyVal)
    (ot' : OptionTree) (h : ot.set_definition a v = .ok ot') :
    ∃ t nd,
      OptionTree.upsertNodeData ot.tree a [("in_memory_definition", v)] = .ok t
      ∧ t.getNode a = some nd
      ∧ ot'.tree = t
      ∧ ot'.change_marker = ot.change_marker + 1
      ∧ ot'.in_memory_change_cache =
          (if nd.data.in_memory_definition = nd.data.configured_definition then
            dictDel a ot.in_memory_change_cache
          else dictSet a v ot.in_memory_change_cache)
      ∧ ot'.configured_change_cache = ot.configured_change_cache := by
  unfold OptionTree.set_definition at h
  split at h
  · cases h
  · rename_i t ht
    split at h
    · cases h
    · rename_i nd hnd
      cases h
      exact ⟨t, nd, ht, hnd, rfl, rfl, rfl, rfl⟩

/-- The payload merge performed by `set_definition` writes exactly the
`in_memory_definition` field. -/
theorem update_single_in_memory (d : OptionData) (v : PyVal) :
    d.update [("in_memory_definition", v)] = { d with in_memory_definition := v } :=
  rfl

/-- C8: setting an attribute's definition to its configured definition
removes it from the in-memory change cache, and a subsequent in-memory
`iter_changes` does not yield it. -/
theorem c8_revert_to_saved (ot : OptionTree) (a : Attribute) (n : TNode)
    (h : ot.tree.getNode a = some n) (ot' : OptionTree)
    (h2 : ot.set_definition a n.data.configured_definition = .ok ot') :
    a ∉ ot'.in_memory_change_cache.map (·.1)
    ∧ ∀ l, ot'.iter_changes false = .ok l →
        ∀ old new, (a, old, new) ∉ l := by
  obtain ⟨t, nd, ht, hnd, htree, hmark, hcache, hcc⟩ := set_definition_spec _ _ _ _ h2
  have hu := upsertNodeData_contained
    [("in_memory_definition", n.data.configured_definition)] h
  rw [update_single_in_memory] at hu
  rw [hu] at ht
  have htt := Except.ok.inj ht
  subst htt
  rw [getNode_updateData_self _ h] at hnd
  have hnd2 := Option.some.inj hnd
  subst hnd2
  have hcond : ({ n with data :=
      { n.data with in_memory_definition := n.data.configured_definition } } :
        TNode).data.in_memory_definition
      = ({ n with data :=
      { n.data with in_memory_definition := n.data.configured_definition } } :
        TNode).data.configured_definition := rfl
  rw [if_pos hcond] at hcache
  constructor
  · rw [hcache]
    exact keys_dictDel a ot.in_memory_change_cache
  · intro l hl old new hmem
    unfold OptionTree.iter_changes at hl
    have hk := iterChangesGo_keys ot' false _ l (by simpa using hl) (a, old, new) hmem
    rw [hcache] at hk
    exact keys_dictDel a ot.in_memory_change_cache hk

/-- C8 witness state: `fixOT` after reverting `a` to its configured value. -/
def c8ot : OptionTree :=
  ((fixOT.set_definition ⟨["a"]⟩ (.odef (.defined "c"))).toOption).getD default

/-- C8 witness: after the reverting call, `a` is not a key of the in-memory
change cache. -/
theorem c8_witness : (⟨["a"]⟩ : Attribute) ∉ c8ot.in_memory_change_cache.map (·.1) :=
  (c8_revert_to_saved fixOT ⟨["a"]⟩ fixNodeA rfl c8ot rfl).1

/-! ## Claim C2 (amended): what actually governs the in-memory cache -/

/-- C2 (amended): immediately after construction the in-memory change cache
is empty (even though an attribute with a configured value already has an
in-memory definition, the undefined sentinel, differing from its configured
one); after each successful `set_definition` on an attribute, that attribute
is a key of the cache precisely when its updated in-memory definition
differs from its configured definition.  `set_definition` is the only
operation that maintains the cache. -/
theorem c2_in_memory_cache_amended :
    (∀ sys cfg ot, OptionTree.construct sys cfg = .ok ot →
      ot.in_memory_change_cache = [])
    ∧ (∀ (ot : OptionTree) (a : Attribute) (v : PyVal) (ot' : OptionTree),
        ot.set_definition a v = .ok ot' →
        (a ∈ ot'.in_memory_change_cache.map (·.1) ↔
          ot'.get_in_memory_definition a ≠ ot'.get_configured_definition a)) := by
  constructor
  · intro sys cfg ot h
    unfold OptionTree.construct at h
    split at h
    · cases h
    · split at h
      · cases h
      · cases h
        rfl
  · intro ot a v ot' h
    obtain ⟨t, nd, ht, hnd, htree, hmark, hcache, hcc⟩ := set_definition_spec _ _ _ _ h
    have him : ot'.get_in_memory_definition a = .ok nd.data.in_memory_definition :=
      get_in_memory_definition_eq (htree ▸ hnd)
    have hcf : ot'.get_configured_definition a = .ok nd.data.configured_definition :=
      get_configured_definition_eq (htree ▸ hnd)
    rw [him, hcf]
    by_cases he : nd.data.in_memory_definition = nd.data.configured_definition
    · rw [if_pos he] at hcache
      rw [hcache]
      constructor
      · intro hk
        exact absurd hk (keys_dictDel a ot.in_memory_change_cache)
      · intro hne
        exact absurd (congrArg Except.ok he) hne
    · rw [if_neg he] at hcache
      rw [hcache]
      constructor
      · intro _ hok
        exact he (Except.ok.inj hok)
      · intro _
        exact (keys_dictSet a v ot.in_memory_change_cache a).mpr (Or.inl rfl)

/-- C2 witness state: `fixOT` after one edit of `a`. -/
def c2wot : OptionTree :=
  ((fixOT.set_definition ⟨["a"]⟩ (.odef (.defined "z"))).toOption).getD default

/-- C2 witness: the amended biconditional at a concrete edited state. -/
theorem c2_witness :
    (⟨["a"]⟩ : Attribute) ∈ c2wot.in_memory_change_cache.map (·.1) ↔
      c2wot.get_in_memory_definition ⟨["a"]⟩ ≠ c2wot.get_configured_definition ⟨["a"]⟩ :=
  c2_in_memory_cache_amended.2 fixOT ⟨["a"]⟩ (.odef (.defined "z")) c2wot rfl

/-! ## Claim C9: ancestor aggregation -/

/-- C9: the change-set-with-ancestors is exactly the set of strict prefixes
(`attr[:i]` for `i < len(attr)`, so including the root and excluding the
changed attribute itself) of the attributes yielded by `iter_changes` on the
selected cache. -/
theorem c9_ancestors_exact (ot : OptionTree) (gcc : Bool)
    (l : List (Attribute × PyVal × PyVal)) (h : ot.iter_changes gcc = .ok l)
    (s : List Attribute) (h2 : ot.get_change_set_with_ancestors gcc = .ok s)
    (x : Attribute) :
    x ∈ s ↔ ∃ trip ∈ l, ∃ i < trip.1.loc.length, x = ⟨trip.1.loc.take i⟩ := by
  unfold OptionTree.get_change_set_with_ancestors at h2
  split at h2
  · cases h2
  · rename_i l2 hl2
    have hll : l2 = l := by
      rw [h] at hl2
      exact (Except.ok.inj hl2).symm
    subst hll
    cases h2
    rw [mem_ancestorFold]
    simp only [List.not_mem_nil, false_or]

/-- C9 witness: with `a.b.c` the only change, the result contains the root
(and, per the biconditional, only strict prefixes). -/
theorem c9_witness :
    (⟨[]⟩ : Attribute) ∈ [(⟨[]⟩ : Attribute), ⟨["a"]⟩, ⟨["a", "b"]⟩] ↔
      ∃ trip ∈ [((⟨["a", "b", "c"]⟩ : Attribute), (PyVal.odef .undefined),
          (PyVal.odef (.defined "v")))],
        ∃ i < trip.1.loc.length, (⟨[]⟩ : Attribute) = ⟨trip.1.loc.take i⟩ :=
  c9_ancestors_exact fixDeepOT false _ rfl _ rfl ⟨[]⟩

/-! ## Claim C3 (amended): what the configured change cache holds -/

/-- C3 (amended): immediately after construction, the configured change
cache holds exactly the attributes of `config_options` that have a node in
the phase-1 tree — every valid configured option is cached, with no
comparison against the system default (entries equal to the system default
are only filtered later, by `iter_changes`). -/
theorem c3_configured_cache_amended
    (sys : List (Attribute × List (String × PyVal)))
    (cfg : List (Attribute × PyVal)) (t1 : PTree) (ot : OptionTree)
    (a : Attribute)
    (h1 : OptionTree.constructSystem (sortByKey OptionTree.sysSortKey sys)
      OptionTree.rootTree = .ok t1)
    (h2 : OptionTree.construct sys cfg = .ok ot) :
    a ∈ ot.configured_change_cache.map (·.1) ↔
      a ∈ cfg.map (·.1) ∧ t1.containsId a = true := by
  unfold OptionTree.construct at h2
  split at h2
  · cases h2
  · rename_i t1' h1'
    rw [h1] at h1'
    have ht1 := Except.ok.inj h1'
    subst ht1
    split at h2
    · cases h2
    · rename_i out t2 cc hout
      cases h2
      have hspec := (constructConfig_spec cfg t1 [] (t2, cc) hout).2 a
      simpa using hspec

/-- C3 witness: the amended characterization at the concrete construction of
`c3ot` (one valid configured option, cached although equal to the system
default). -/
theorem c3_witness :
    (⟨["a"]⟩ : Attribute) ∈ c3ot.configured_change_cache.map (·.1) ↔
      (⟨["a"]⟩ : Attribute) ∈ c3cfg.map (·.1) ∧ c3t1.containsId ⟨["a"]⟩ = true :=
  c3_configured_cache_amended c2sys c3cfg c3t1 c3ot ⟨["a"]⟩ rfl rfl

/-! ## Claim C10: `OptionData.update` key matching and the `default` key -/

/-- C10: `update` touches only fields whose key names a field (or its
underscore-prefixed variant) and ignores every other key outright; the
evaluator's `default` metadata key names no field (neither `default` nor
`_default` is one), so construction never populates
`system_default_definition` and `get_system_default_definition` of any
constructed node returns the undefined sentinel. -/
theorem c10_update_frame_and_default_ignored :
    (∀ (d : OptionData) (kvs : List (String × PyVal)),
      (∀ kv ∈ kvs, hasattrF kv.1 = false ∧ hasattrF ("_" ++ kv.1) = false) →
      d.update kvs = d)
    ∧ hasattrF "default" = false
    ∧ hasattrF "_default" = false
    ∧ (∀ sys cfg ot a n,
        (∀ e ∈ sys, ∀ kv ∈ e.2,
          kv.1 ∈ ["description", "readOnly", "type", "default"]) →
        OptionTree.construct sys cfg = .ok ot →
        ot.tree.getNode a = some n →
        n.data.system_default_definition = .odef .undefined
        ∧ ot.get_system_default_definition a = .ok (.odef .undefined)) := by
  refine ⟨update_of_no_field, by decide, by decide, ?_⟩
  intro sys cfg ot a n hk hcon hg
  have hs := construct_sddUndef hk hcon
  have h1 := hs n (getNode_mem hg)
  refine ⟨h1, ?_⟩
  rw [get_system_default_definition_eq hg, h1]

/-- C10 witness: a metadata entry carrying a `default` key leaves the
system-default slot of the constructed node undefined. -/
theorem c10_witness :
    c10ot.get_system_default_definition ⟨["a"]⟩ = .ok (.odef .undefined) :=
  (c10_update_frame_and_default_ignored.2.2.2 c10sys [] c10ot ⟨["a"]⟩ _
    (by decide) rfl rfl).2

end Nixui